import Mathlib

/-!
# Verification of the redactor-pro PII detection and redaction pipeline

Shallow embedding of the core data model and operations of the
redactor-pro repository, together with theorems settling the spec's
claims about them.

Pixel coordinates, word confidences and detection confidences are
embedded as rationals (`ℚ`); character offsets and string lengths as
naturals.  JavaScript `Map<number, RedactionRegion[]>` is embedded as an
association list with unique keys, mirroring `get`/`set`/`delete`
semantics.
-/

namespace Redactor

/-- Axis-aligned bounding box `{x0, y0, x1, y1}` in page-local pixel
coordinates (`src/types/redaction.ts`, `BoundingBox`). -/
structure BoundingBox where
  x0 : ℚ
  y0 : ℚ
  x1 : ℚ
  y1 : ℚ
  deriving DecidableEq, Repr

/-- An OCR word: recognized text, pixel-space bounding box and a 0–100
confidence (`src/types/redaction.ts`, `OCRWord`). -/
structure OCRWord where
  text : String
  bbox : BoundingBox
  confidence : ℚ
  deriving DecidableEq, Repr

/-- A redaction region (`src/types/redaction.ts`, `RedactionRegion`).
The TypeScript `piiType` field is a runtime string (the value carried by
the `PIIType` string enum member, or whatever string was actually stored
there); `piiType`/`confidence` are optional. -/
structure RedactionRegion where
  id : String
  x : ℚ
  y : ℚ
  width : ℚ
  height : ℚ
  piiType : Option String
  confidence : Option ℚ
  isManual : Bool
  deriving DecidableEq, Repr

/-- A PII detection (`src/types/redaction.ts`, `PIIDetection`).  The
`type` field is embedded as the runtime string actually stored there by
the code (TypeScript erases the `PIIType` annotation at runtime, and
`detectWithRegex` stores a plainly cast string). -/
structure PIIDetection where
  text : String
  type : String
  confidence : ℚ
  startIndex : ℕ
  endIndex : ℕ
  words : List OCRWord
  deriving DecidableEq, Repr

/-- The runtime values of the closed `PIIType` string enum
(`src/types/redaction.ts`). -/
def piiTypeValues : List String :=
  ["name", "email", "phone", "ssn", "address", "date_of_birth",
   "credit_card", "other"]

/-! ## Region store (`src/hooks/useRedactions.ts`)

The React state `Map<number, RedactionRegion[]>` plus the selected
region id, embedded as an explicit state record.  The JS `Map` is
embedded as an association list with unique keys: `set` replaces the
entry in place when the key exists and appends otherwise, `delete`
removes the entry, `get(page) || []` defaults to the empty list. -/

/-- Page-keyed region map: association list `pageNumber → regions`. -/
abbrev PageMap := List (ℕ × List RedactionRegion)

/-- `redactions.get(page) || []`. -/
def mapGet : PageMap → ℕ → List RedactionRegion
  | [], _ => []
  | e :: m, page => if e.1 = page then e.2 else mapGet m page

/-- `map.set(page, rs)`: replace the entry in place, or append a new one. -/
def mapSet : PageMap → ℕ → List RedactionRegion → PageMap
  | [], page, rs => [(page, rs)]
  | e :: m, page, rs => if e.1 = page then (page, rs) :: m else e :: mapSet m page rs

/-- `map.delete(page)`. -/
def mapDelete : PageMap → ℕ → PageMap
  | [], _ => []
  | e :: m, page => if e.1 = page then mapDelete m page else e :: mapDelete m page

/-- `map.has(page)`: whether the page key is present. -/
def hasPage : PageMap → ℕ → Bool
  | [], _ => false
  | e :: m, page => e.1 == page || hasPage m page

/-- The `useRedactions` hook state: the page map and the selected region id. -/
structure RedactionsState where
  redactions : PageMap
  selectedRegionId : Option String
  deriving DecidableEq, Repr

/-- Initial hook state: empty map, no selection. -/
def initialState : RedactionsState := ⟨[], none⟩

/-- `getRegionsForPage(page)`: `redactions.get(pageNumber) || []`. -/
def getRegionsForPage (st : RedactionsState) (page : ℕ) : List RedactionRegion :=
  mapGet st.redactions page

/-- The word grouping loop of `addAutoDetectedRegions`
(`src/hooks/useRedactions.ts`): accumulate `currentLine`, tracking
`lastY0` (sentinel `-1` before the first word); a word joins the current
line when `lastY0 === -1 || Math.abs(y0 - lastY0) < 5`. -/
def groupLinesGo : List OCRWord → List OCRWord → ℚ → List (List OCRWord)
  | [], currentLine, _ => if currentLine.isEmpty then [] else [currentLine]
  | w :: ws, currentLine, lastY0 =>
    let y0 := w.bbox.y0
    if lastY0 = -1 ∨ |y0 - lastY0| < 5 then
      groupLinesGo ws (currentLine ++ [w]) y0
    else
      (if currentLine.isEmpty then [] else [currentLine]) ++ groupLinesGo ws [w] y0

/-- Group a detection's words into visual lines (`addAutoDetectedRegions`). -/
def groupLines (ws : List OCRWord) : List (List OCRWord) :=
  groupLinesGo ws [] (-1)

/-- One redaction region per grouped line (`addAutoDetectedRegions`):
spans from the first word's top-left to the last word's bottom-right and
carries the detection's type and confidence with `isManual: false`.
`idStr` stands for the generated `auto-${Date.now()}-${Math.random()}` id. -/
def lineRegion (idStr : String) (d : PIIDetection) (line : List OCRWord) :
    Option RedactionRegion :=
  match line.head?, line.getLast? with
  | some fw, some lw =>
    some { id := idStr, x := fw.bbox.x0, y := fw.bbox.y0,
           width := lw.bbox.x1 - fw.bbox.x0, height := lw.bbox.y1 - fw.bbox.y0,
           piiType := some d.type, confidence := some d.confidence,
           isManual := false }
  | _, _ => none

/-- All regions contributed by one detection (`addAutoDetectedRegions`). -/
def regionsForDetection (idStr : String) (d : PIIDetection) : List RedactionRegion :=
  (groupLines d.words).filterMap (lineRegion idStr d)

/-- `addAutoDetectedRegions(pageNumber, detections)`
(`src/hooks/useRedactions.ts`). -/
def addAutoDetectedRegions (idStr : String) (page : ℕ) (dets : List PIIDetection)
    (st : RedactionsState) : RedactionsState :=
  let pageRegions := mapGet st.redactions page
  let newRegions := dets.flatMap (regionsForDetection idStr)
  { st with redactions := mapSet st.redactions page (pageRegions ++ newRegions) }

/-- The rectangle data handed to `addManualRegion`
(`Omit<RedactionRegion, "id" | "isManual">` as produced by the canvas
drawing path, which never sets `piiType`/`confidence`). -/
structure ManualRect where
  x : ℚ
  y : ℚ
  width : ℚ
  height : ℚ
  deriving DecidableEq, Repr

/-- `addManualRegion(pageNumber, region)` (`src/hooks/useRedactions.ts`):
appends the region with a generated id and `isManual: true`.  `idStr`
stands for the generated `manual-${Date.now()}-${Math.random()}` id. -/
def addManualRegion (idStr : String) (page : ℕ) (rect : ManualRect)
    (st : RedactionsState) : RedactionsState :=
  let pageRegions := mapGet st.redactions page
  let newRegion : RedactionRegion :=
    { id := idStr, x := rect.x, y := rect.y, width := rect.width,
      height := rect.height, piiType := none, confidence := none,
      isManual := true }
  { st with redactions := mapSet st.redactions page (pageRegions ++ [newRegion]) }

/-- The size gate of `CanvasController.handleMouseUp`
(`src/services/PDFRenderer.ts`): a drawn region is only created when
`width >= 5 && height >= 5`. -/
def manualRegionAccepted (rect : ManualRect) : Bool :=
  decide (5 ≤ rect.width) && decide (5 ≤ rect.height)

/-- The synthetic detection the app's installed `onRegionCreated`
callback (`src/pages/index.tsx`, `enableManualDrawing` handler) builds
around an accepted drawn rectangle: text `"Manual Redaction"`, type
`PIIType.OTHER` (runtime value `"other"`), confidence 100, and a single
empty-text word whose box is the rectangle itself. -/
def syntheticManualDetection (rect : ManualRect) : PIIDetection :=
  { text := "Manual Redaction", type := "other", confidence := 100,
    startIndex := 0, endIndex := 0,
    words := [{ text := "",
                bbox := { x0 := rect.x, y0 := rect.y,
                          x1 := rect.x + rect.width,
                          y1 := rect.y + rect.height },
                confidence := 100 }] }

/-- The manual-drawing pipeline the repository actually wires up:
`CanvasController.handleMouseUp` fires `onRegionCreated` only when the
5×5 size gate passes, and the only callback ever installed
(`src/pages/index.tsx`) stores the rectangle through
`addAutoDetectedRegions`, wrapped in `syntheticManualDetection` — not
through the hook's `addManualRegion`, which the app never calls. -/
def handleMouseUpStore (idStr : String) (page : ℕ) (rect : ManualRect)
    (st : RedactionsState) : RedactionsState :=
  if manualRegionAccepted rect then
    addAutoDetectedRegions idStr page [syntheticManualDetection rect] st
  else st

/-- `removeRegion(pageNumber, regionId)` (`src/hooks/useRedactions.ts`):
filter the page's regions by id, delete the page key when the result is
empty, and clear the selection when the removed id was selected. -/
def removeRegion (page : ℕ) (rid : String) (st : RedactionsState) : RedactionsState :=
  let pageRegions := mapGet st.redactions page
  let filtered := pageRegions.filter (fun r => r.id != rid)
  let m := if filtered.isEmpty then mapDelete st.redactions page
           else mapSet st.redactions page filtered
  let sel := if st.selectedRegionId = some rid then none else st.selectedRegionId
  { redactions := m, selectedRegionId := sel }

/-- `clearAllRegions(pageNumber?)` (`src/hooks/useRedactions.ts`). -/
def clearAllRegions (pageOpt : Option ℕ) (st : RedactionsState) : RedactionsState :=
  match pageOpt with
  | some page => { redactions := mapDelete st.redactions page, selectedRegionId := none }
  | none => { redactions := [], selectedRegionId := none }

/-! ## Render/composite step (`README.md`, `RedactionManager.applyRedactions`)

A pixel surface is a function from rational pixel coordinates to RGBA
colors; `fillRect` with an opaque color overwrites every point of the
rectangle. -/

/-- An RGBA color value. -/
structure RGBA where
  r : ℕ
  g : ℕ
  b : ℕ
  a : ℕ
  deriving DecidableEq, Repr

/-- `ctx.fillStyle = "#000000"`: opaque black. -/
def blackOpaque : RGBA := ⟨0, 0, 0, 255⟩

/-- A pixel surface in original document pixel coordinates. -/
def Surface : Type := ℚ × ℚ → RGBA

/-- `ctx.fillRect(x, y, w, h)` with an opaque fill color `c`. -/
def fillRect (c : RGBA) (x y w h : ℚ) (s : Surface) : Surface :=
  fun p => if x ≤ p.1 ∧ p.1 < x + w ∧ y ≤ p.2 ∧ p.2 < y + h then c else s p

/-- `RedactionManager.applyRedactions`: paint an opaque black rectangle
over each region's exact stored coordinates. -/
def applyRedactions (regions : List RedactionRegion) (s : Surface) : Surface :=
  regions.foldl (fun surf r => fillRect blackOpaque r.x r.y r.width r.height surf) s

/-- Whether a point lies inside a region's rectangle. -/
def inRectB (r : RedactionRegion) (p : ℚ × ℚ) : Bool :=
  decide (r.x ≤ p.1 ∧ p.1 < r.x + r.width ∧ r.y ≤ p.2 ∧ p.2 < r.y + r.height)

/-- Whether a point lies inside some region of the list. -/
def coveredBy (regions : List RedactionRegion) (p : ℚ × ℚ) : Bool :=
  regions.any fun r => inRectB r p

/-! ## Entity detector (`src/services/PDFRenderer.ts`, `PIIDetectionEngineImpl`)

The regex engine itself is not embedded: `findMatches` produces a list of
`(text, startIndex, endIndex)` records, and the claims quantify over all
pattern matches, so the per-type match lists are inputs of
`detectWithRegex` here. -/

/-- The keys of `PII_PATTERNS`, in insertion order (the order
`Object.entries` yields them in `detectWithRegex`). -/
def patternKeys : List String :=
  ["email", "phone", "ssn", "creditCard", "dateOfBirth"]

/-- One regex match as recorded by `findMatches`. -/
structure PatternMatch where
  text : String
  startIndex : ℕ
  endIndex : ℕ
  deriving DecidableEq, Repr

/-- JS `fullText.indexOf(pat, j)` search loop: try successive start
positions, `fuel` bounds the remaining positions to try. -/
def indexOfFromAux (full pat : List Char) : ℕ → ℕ → Option ℕ
  | _, 0 => none
  | j, fuel + 1 =>
    if pat.isPrefixOf (full.drop j) then some j
    else indexOfFromAux full pat (j + 1) fuel

/-- JS `fullText.indexOf(pat, i)`: the least position `j ≥ i` at which
`pat` occurs in `full` (`none` when JS returns `-1`). -/
def indexOfFrom (full pat : List Char) (i : ℕ) : Option ℕ :=
  indexOfFromAux full pat i (full.length + 1 - i)

/-- The scan loop of `findOverlappingWords`: walk the word list with a
cursor `currentIndex` into the full text, locate each word via
`indexOf`, include it when strictly more than 50% of its own span
overlaps `[startIndex, endIndex)`, and stop once a located word starts
at or past `endIndex`. -/
def findOverlappingWordsGo (startIndex endIndex : ℕ) (fullText : List Char) :
    List OCRWord → ℕ → List OCRWord
  | [], _ => []
  | w :: ws, currentIndex =>
    match indexOfFrom fullText w.text.toList currentIndex with
    | none => findOverlappingWordsGo startIndex endIndex fullText ws currentIndex
    | some wordStart =>
      let wordEnd := wordStart + w.text.length
      let overlapStart := max wordStart startIndex
      let overlapEnd := min wordEnd endIndex
      let overlapLength := overlapEnd - overlapStart
      let wordLength := wordEnd - wordStart
      let rest := if endIndex ≤ wordStart then []
                  else findOverlappingWordsGo startIndex endIndex fullText ws wordEnd
      if ((overlapLength : ℚ) > (wordLength : ℚ) * 0.5) then w :: rest else rest

/-- `findOverlappingWords(startIndex, endIndex, words, fullText)`. -/
def findOverlappingWords (startIndex endIndex : ℕ) (words : List OCRWord)
    (fullText : String) : List OCRWord :=
  findOverlappingWordsGo startIndex endIndex fullText.toList words 0

/-- Spec-side definition (from the claim's words, for claim C1): the
cursor scan assigning each OCR word its located character position in
the full text (`none` when `indexOf` fails to find it). -/
def wordPositions (fullText : List Char) : List OCRWord → ℕ → List (OCRWord × Option ℕ)
  | [], _ => []
  | w :: ws, cur =>
    match indexOfFrom fullText w.text.toList cur with
    | none => (w, none) :: wordPositions fullText ws cur
    | some s => (w, some s) :: wordPositions fullText ws (s + w.text.length)

/-- Spec-side definition (claim C1): a located word qualifies iff its
overlap with `[startIndex, endIndex)` is strictly more than 50% of the
word's own character span. -/
def wordQualifies (startIndex endIndex : ℕ) (w : OCRWord) (pos : Option ℕ) : Bool :=
  match pos with
  | none => false
  | some s =>
    decide (((min (s + w.text.length) endIndex - max s startIndex : ℕ) : ℚ) >
      (w.text.length : ℚ) * 0.5)

/-- Spec-side definition (claim C1): exactly the located words whose
overlap strictly exceeds half their own span, in word-list order. -/
def overlappingWordsSpec (startIndex endIndex : ℕ) (words : List OCRWord)
    (fullText : String) : List OCRWord :=
  (wordPositions fullText.toList words 0).filterMap fun wp =>
    if wordQualifies startIndex endIndex wp.1 wp.2 then some wp.1 else none

/-- The base-confidence table of `calculateConfidence`
(`baseConfidence[type] || 0.7`); keyed by the pattern key strings. -/
def baseConfidence (ty : String) : ℚ :=
  if ty = "email" then 0.95
  else if ty = "ssn" then 0.98
  else if ty = "creditCard" then 0.9
  else if ty = "phone" then 0.85
  else if ty = "dateOfBirth" then 0.75
  else 0.7

/-- Whether `replace(/[\s-]/g, "")` removes this character. -/
def isCardSeparator (c : Char) : Bool := c.isWhitespace || c == '-'

/-- The Luhn sum loop of `isValidCreditCard`, over the digit values read
right to left, with the `isEven` flag starting `false` and toggling. -/
def luhnSumGo : List ℕ → Bool → ℕ
  | [], _ => 0
  | d :: ds, isEven =>
    (if isEven then (if d * 2 > 9 then d * 2 - 9 else d * 2) else d) +
      luhnSumGo ds (!isEven)

/-- `isValidCreditCard(cardNumber)`: strip spaces and dashes, require 13
to 19 digits, and check the Luhn checksum. -/
def isValidCreditCard (cardNumber : String) : Bool :=
  let digits := cardNumber.toList.filter fun c => !(isCardSeparator c)
  if digits.all Char.isDigit && decide (13 ≤ digits.length) &&
      decide (digits.length ≤ 19) then
    luhnSumGo (digits.reverse.map fun c => c.toNat - 48) false % 10 == 0
  else false

/-- `calculateConfidence(type, matchText, words)`: type-specific base,
blended 70/30 with the mean OCR word confidence when words are present;
the Luhn discount branch compares `type` against the enum value
`PIIType.CREDIT_CARD = "credit_card"`; the result is clamped to 1. -/
def calculateConfidence (ty : String) (matchText : String)
    (words : List OCRWord) : ℚ :=
  let base := baseConfidence ty
  let blended :=
    if 0 < words.length then
      let avgOCRConfidence := (words.map OCRWord.confidence).sum / (words.length : ℚ)
      base * 0.7 + (avgOCRConfidence / 100) * 0.3
    else base
  let adjusted :=
    if ty = "credit_card" ∧ isValidCreditCard matchText = false then blended * 0.5
    else blended
  min adjusted 1

/-- `mapMatchToWords(matchText, startIndex, endIndex, type, words,
fullText)`: locate the overlapping words; discard the match when none
qualifies, otherwise build the detection. -/
def mapMatchToWords (matchText : String) (startIndex endIndex : ℕ) (ty : String)
    (words : List OCRWord) (fullText : String) : Option PIIDetection :=
  let matchedWords := findOverlappingWords startIndex endIndex words fullText
  if matchedWords.isEmpty then none
  else some { text := matchText, type := ty,
              confidence := calculateConfidence ty matchText matchedWords,
              startIndex := startIndex, endIndex := endIndex,
              words := matchedWords }

/-- `detectWithRegex(text, words)`: for each pattern key (in
`Object.entries` order), map each of its matches to words, keeping the
detections that could be localized.  `matchesFor` stands for the match
lists `findMatches` produces per pattern. -/
def detectWithRegex (matchesFor : String → List PatternMatch)
    (words : List OCRWord) (text : String) : List PIIDetection :=
  patternKeys.flatMap fun ty =>
    (matchesFor ty).filterMap fun m =>
      mapMatchToWords m.text m.startIndex m.endIndex ty words text

/-- Concrete input for the credit-card claims: a 16-digit number that
fails the Luhn checksum, read by one OCR word with confidence 100. -/
def ccFailText : String := "4111111111111112"

/-- The OCR word covering `ccFailText`. -/
def ccFailWord : OCRWord := ⟨"4111111111111112", ⟨0, 0, 160, 10⟩, 100⟩

/-- The single `creditCard` pattern match on `ccFailText`. -/
def ccFailMatches : String → List PatternMatch := fun ty =>
  if ty = "creditCard" then [⟨"4111111111111112", 0, 16⟩] else []

/-- Concrete input for the date-of-birth part of claim C7. -/
def dobText : String := "01/02/1990"

/-- The OCR word covering `dobText`. -/
def dobWord : OCRWord := ⟨"01/02/1990", ⟨0, 0, 100, 10⟩, 100⟩

/-- The single `dateOfBirth` pattern match on `dobText`. -/
def dobMatches : String → List PatternMatch := fun ty =>
  if ty = "dateOfBirth" then [⟨"01/02/1990", 0, 10⟩] else []

/-! ## Spec-side definitions for the line clustering (claim C3) -/

/-- Spec-side (from the claim's words): cluster a word with the previous
one exactly when `|y0 − previous y0| < 5`; `prevY0` is the previous
word's top edge. -/
def groupLinesSpecGo : List OCRWord → List OCRWord → ℚ → List (List OCRWord)
  | [], currentLine, _ => [currentLine]
  | w :: ws, currentLine, prevY0 =>
    if |w.bbox.y0 - prevY0| < 5 then
      groupLinesSpecGo ws (currentLine ++ [w]) w.bbox.y0
    else
      currentLine :: groupLinesSpecGo ws [w] w.bbox.y0

/-- Spec-side (claim C3): lines of a detection's word list. -/
def groupLinesSpec : List OCRWord → List (List OCRWord)
  | [] => []
  | w :: ws => groupLinesSpecGo ws [w] w.bbox.y0

/-- Spec-side (claim C3): the region for one line, spanning from the
first word's top-left `(x0, y0)` to the last word's bottom-right
`(x1, y1)`, carrying the detection's type and confidence with
`isManual = false`. -/
def lineRegionSpec (idStr : String) (d : PIIDetection) (line : List OCRWord) :
    RedactionRegion :=
  { id := idStr,
    x := ((line.head?.map fun w => w.bbox.x0).getD 0),
    y := ((line.head?.map fun w => w.bbox.y0).getD 0),
    width := ((line.getLast?.map fun w => w.bbox.x1).getD 0) -
      ((line.head?.map fun w => w.bbox.x0).getD 0),
    height := ((line.getLast?.map fun w => w.bbox.y1).getD 0) -
      ((line.head?.map fun w => w.bbox.y0).getD 0),
    piiType := some d.type, confidence := some d.confidence,
    isManual := false }

/-! ## Text extractor geometry correction (`src/services/OCREngine.ts`) -/

/-- A raw Tesseract word as read from `result.data.blocks` before the
geometry correction of `OCREngineImpl.extractText`. -/
structure TessWord where
  text : String
  bbox : BoundingBox
  confidence : ℚ
  deriving DecidableEq, Repr

/-- `const width = bbox.x1 - bbox.x0`. -/
def tessWidth (w : TessWord) : ℚ := w.bbox.x1 - w.bbox.x0

/-- `const height = bbox.y1 - bbox.y0`. -/
def tessHeight (w : TessWord) : ℚ := w.bbox.y1 - w.bbox.y0

/-- `const avgCharWidth = width / word.text.length`. -/
def avgCharWidth (w : TessWord) : ℚ := tessWidth w / (w.text.length : ℚ)

/-- `const aspectRatio = height / avgCharWidth`. -/
def aspectRatio (w : TessWord) : ℚ := tessHeight w / avgCharWidth w

/-- `const lineBaseline = line.baseline?.y0 || null`: an absent baseline
is `null`, and a present baseline `y0` of `0` is falsy, so it also
becomes `null`. -/
def effectiveBaseline (b : Option ℚ) : Option ℚ :=
  match b with
  | some v => if v = 0 then none else some v
  | none => none

/-- The per-word bounding-box correction of `OCREngineImpl.extractText`:
when a line baseline is available and `aspectRatio > 2.5`, the top edge
becomes `lineBaseline - (avgCharWidth * 1.5) * 0.8`; everything else is
passed through unchanged. -/
def correctWordBbox (baselineY0 : Option ℚ) (w : TessWord) : OCRWord :=
  let bbox :=
    match effectiveBaseline baselineY0 with
    | some b =>
      if aspectRatio w > 2.5 then
        { x0 := w.bbox.x0, y0 := b - avgCharWidth w * 1.5 * 0.8,
          x1 := w.bbox.x1, y1 := w.bbox.y1 }
      else w.bbox
    | none => w.bbox
  { text := w.text, bbox := bbox, confidence := w.confidence }

/-- The per-line loop of `extractText`: the line baseline is computed
once per line and each word is emitted through the correction. -/
def processLineWords (baselineY0 : Option ℚ) (ws : List TessWord) : List OCRWord :=
  ws.map (correctWordBbox baselineY0)

/-! ## Region store operation sequences (claim C9) -/

/-- The operations of the region store contract. -/
inductive StoreOp where
  | addAuto (idStr : String) (page : ℕ) (dets : List PIIDetection)
  | addManual (idStr : String) (page : ℕ) (rect : ManualRect)
  | remove (page : ℕ) (rid : String)
  | clear (pageOpt : Option ℕ)
  deriving DecidableEq, Repr

/-- Apply one store operation. -/
def applyOp (st : RedactionsState) : StoreOp → RedactionsState
  | .addAuto idStr page dets => addAutoDetectedRegions idStr page dets st
  | .addManual idStr page rect => addManualRegion idStr page rect st
  | .remove page rid => removeRegion page rid st
  | .clear pageOpt => clearAllRegions pageOpt st

/-- Run a call sequence from the initial (empty) store. -/
def runOps (ops : List StoreOp) : RedactionsState :=
  ops.foldl applyOp initialState

/-- All stored regions across pages (`getAllRegions`). -/
def allRegionsMap (m : PageMap) : List RedactionRegion :=
  m.flatMap Prod.snd

/-- All stored regions of a state. -/
def allRegions (st : RedactionsState) : List RedactionRegion :=
  allRegionsMap st.redactions

/-- Non-negativity of a stored region's geometry (the spec invariant). -/
def regionOK (r : RedactionRegion) : Bool :=
  decide (0 ≤ r.x) && decide (0 ≤ r.y) && decide (0 ≤ r.width) &&
    decide (0 ≤ r.height)

/-- A clustered line spans non-negatively: the first word's top-left is
non-negative and lies weakly left of / above the last word's
bottom-right. -/
def lineSpansNonNeg (line : List OCRWord) : Bool :=
  match line.head?, line.getLast? with
  | some fw, some lw =>
    decide (0 ≤ fw.bbox.x0) && decide (0 ≤ fw.bbox.y0) &&
      decide (fw.bbox.x0 ≤ lw.bbox.x1) && decide (fw.bbox.y0 ≤ lw.bbox.y1)
  | _, _ => true

/-- A detection whose clustered lines all span non-negatively. -/
def detectionOK (d : PIIDetection) : Bool :=
  (groupLines d.words).all lineSpansNonNeg

/-- A manual rectangle with non-negative geometry. -/
def rectOK (rect : ManualRect) : Bool :=
  decide (0 ≤ rect.x) && decide (0 ≤ rect.y) && decide (0 ≤ rect.width) &&
    decide (0 ≤ rect.height)

/-- The amended well-formedness condition on a store operation. -/
def opOK : StoreOp → Bool
  | .addAuto _ _ dets => dets.all detectionOK
  | .addManual _ _ rect => rectOK rect
  | .remove _ _ => true
  | .clear _ => true

/-! ## OCR worker request bookkeeping (`src/services/OCREngineWorker.ts`) -/

/-- The OCR result shape crossing the worker boundary
(`src/types/redaction.ts`, `OCRResult`). -/
structure WorkerOCRResult where
  text : String
  words : List OCRWord
  confidence : ℚ
  deriving DecidableEq, Repr

/-- How a request's promise settles. -/
inductive RequestOutcome where
  | success (result : WorkerOCRResult)
  | failure (message : String)
  deriving DecidableEq, Repr

/-- The client-side bookkeeping of `OCREngineWorker`: the ids in the
pending-request table, and the log of settled promises. -/
structure WorkerClientState where
  pendingRequests : List String
  outcomes : List (String × RequestOutcome)
  deriving DecidableEq, Repr

/-- `TIMEOUT_MS = 120000`: the 120-second extraction timeout. -/
def TIMEOUT_MS : ℕ := 120000

/-- The `setTimeout` callback installed by `extractText`: delete the
request id from the pending table and reject the promise with the
timeout-specific error.  It can only fire while the request is still
pending, because every settling path clears the timer first. -/
def fireExtractTimeout (rid : String) (st : WorkerClientState) : WorkerClientState :=
  { pendingRequests := st.pendingRequests.filter fun r => r != rid,
    outcomes := st.outcomes ++ [(rid, .failure "OCR operation timeout")] }

/-- A message from the worker (`handleWorkerMessage` input); optional
fields mirror the TypeScript message shape. -/
inductive WorkerMessage where
  | success (requestId : Option String) (result : Option WorkerOCRResult)
  | error (requestId : Option String) (errorMsg : Option String)
  | progress (progress : Option ℚ) (status : Option String)
  | unknown (ty : String)
  deriving DecidableEq, Repr

/-- `OCREngineWorker.handleWorkerMessage`: a success or error message
settles the matching pending request; a message whose request id is not
in the pending table is ignored, as are progress and unknown messages
(state-wise). -/
def handleWorkerMessage (msg : WorkerMessage) (st : WorkerClientState) :
    WorkerClientState :=
  match msg with
  | .success ridOpt resOpt =>
    match ridOpt, resOpt with
    | some rid, some res =>
      if rid ∈ st.pendingRequests then
        { pendingRequests := st.pendingRequests.filter fun r => r != rid,
          outcomes := st.outcomes ++ [(rid, .success res)] }
      else st
    | _, _ => st
  | .error ridOpt errOpt =>
    match ridOpt with
    | some rid =>
      if rid ∈ st.pendingRequests then
        { pendingRequests := st.pendingRequests.filter fun r => r != rid,
          outcomes := st.outcomes ++ [(rid, .failure (errOpt.getD "Unknown OCR error"))] }
      else st
    | none => st
  | .progress _ _ => st
  | .unknown _ => st

/-- Concrete detection exercising the line clustering: the second word's
`y0` differs by 4px from the first (same line), the third by 6px from
the second (new line). -/
def cDet : PIIDetection :=
  { text := "aa bb cc", type := "other", confidence := 1, startIndex := 0,
    endIndex := 8,
    words := [⟨"aa", ⟨0, 0, 20, 10⟩, 90⟩, ⟨"bb", ⟨22, 4, 40, 12⟩, 90⟩,
              ⟨"cc", ⟨0, 10, 18, 20⟩, 90⟩] }

/-- Concrete Tesseract word for the baseline-zero case: one character,
box 1px wide and 5px tall, so the aspect ratio is 5. -/
def tallZeroBaselineWord : TessWord := ⟨"a", ⟨0, 5, 1, 10⟩, 90⟩

/-! ## Store lemmas -/

theorem mapGet_mapSet (m : PageMap) (page : ℕ) (rs : List RedactionRegion) :
    mapGet (mapSet m page rs) page = rs := by
  induction m with
  | nil => simp [mapSet, mapGet]
  | cons e m ih =>
    by_cases h : e.1 = page
    · simp [mapSet, mapGet, h]
    · simp [mapSet, mapGet, h, ih]

theorem mapGet_mapDelete (m : PageMap) (page : ℕ) :
    mapGet (mapDelete m page) page = [] := by
  induction m with
  | nil => rfl
  | cons e m ih =>
    by_cases h : e.1 = page
    · simpa [mapDelete, h] using ih
    · simpa [mapDelete, mapGet, h] using ih

theorem hasPage_mapDelete (m : PageMap) (page : ℕ) :
    hasPage (mapDelete m page) page = false := by
  induction m with
  | nil => rfl
  | cons e m ih =>
    by_cases h : e.1 = page
    · simpa [mapDelete, h] using ih
    · simp [mapDelete, hasPage, h, ih]

/-! ## Claims C4, C5, C6 -/

/-- Claim C4 (code bug): the 5×5 gate of `handleMouseUp` rejects a 4×10
rectangle (no region is stored) and accepts a 5×5 rectangle as claimed,
but an accepted manually drawn rectangle is NOT appended with
`isManual = true`: the only installed `onRegionCreated` callback stores
it through `addAutoDetectedRegions` wrapped in a synthetic detection, so
the stored region has `isManual = false`, `piiType "other"` and
confidence 100, while the hook's `addManualRegion` — which would set
`isManual = true` — is never called by the app. -/
theorem manual_draw_stored_as_auto :
    manualRegionAccepted ⟨10, 10, 4, 10⟩ = false ∧
    handleMouseUpStore "a1" 1 ⟨10, 10, 4, 10⟩ initialState = initialState ∧
    manualRegionAccepted ⟨10, 10, 5, 5⟩ = true ∧
    (getRegionsForPage (handleMouseUpStore "a1" 1 ⟨10, 10, 5, 5⟩ initialState) 1).map
        (fun r => (r.isManual, r.piiType, r.confidence)) =
      [(false, some "other", some 100)] ∧
    (false, some "other") ≠ (true, (none : Option String)) := by
  have hgate : manualRegionAccepted ⟨10, 10, 5, 5⟩ = true := by decide
  refine ⟨by decide, by decide, hgate, ?_, by decide⟩
  simp only [handleMouseUpStore, hgate, if_true]
  simp [addAutoDetectedRegions, getRegionsForPage, mapGet_mapSet,
    syntheticManualDetection, regionsForDetection, groupLines, groupLinesGo,
    lineRegion, initialState, mapGet]

/-- Claim C5: removing the last remaining region of a page leaves
`getRegionsForPage` empty and removes the page key itself from the map;
and when the removed region was the selected one, the selection is
cleared. -/
theorem remove_last_region_clears_page (page : ℕ) (rid : String)
    (st : RedactionsState) (r : RedactionRegion)
    (hpg : mapGet st.redactions page = [r]) (hid : r.id = rid) :
    getRegionsForPage (removeRegion page rid st) page = [] ∧
    hasPage (removeRegion page rid st).redactions page = false ∧
    (st.selectedRegionId = some rid →
      (removeRegion page rid st).selectedRegionId = none) := by
  have hfilter : (mapGet st.redactions page).filter (fun r => r.id != rid) = [] := by
    simp [hpg, hid]
  refine ⟨?_, ?_, ?_⟩
  · simp [removeRegion, getRegionsForPage, hfilter, mapGet_mapDelete]
  · simp [removeRegion, hfilter, hasPage_mapDelete]
  · intro hsel
    simp [removeRegion, hsel]

/-- Witness for C5: removing the single region of page 1 (which is also
selected) empties the page, drops the page key and clears the selection. -/
theorem remove_last_region_clears_page_witness :
    getRegionsForPage
      (removeRegion 1 "r1"
        ⟨[(1, [{ id := "r1", x := 0, y := 0, width := 10, height := 10,
                 piiType := none, confidence := none, isManual := true }])],
         some "r1"⟩) 1 = [] ∧
    hasPage
      (removeRegion 1 "r1"
        ⟨[(1, [{ id := "r1", x := 0, y := 0, width := 10, height := 10,
                 piiType := none, confidence := none, isManual := true }])],
         some "r1"⟩).redactions 1 = false ∧
    (removeRegion 1 "r1"
        ⟨[(1, [{ id := "r1", x := 0, y := 0, width := 10, height := 10,
                 piiType := none, confidence := none, isManual := true }])],
         some "r1"⟩).selectedRegionId = none := by
  have h := remove_last_region_clears_page 1 "r1"
    ⟨[(1, [{ id := "r1", x := 0, y := 0, width := 10, height := 10,
             piiType := none, confidence := none, isManual := true }])],
     some "r1"⟩
    { id := "r1", x := 0, y := 0, width := 10, height := 10,
      piiType := none, confidence := none, isManual := true }
    (by simp [mapGet]) rfl
  exact ⟨h.1, h.2.1, h.2.2 rfl⟩

theorem coveredBy_cons (r : RedactionRegion) (rs : List RedactionRegion)
    (p : ℚ × ℚ) : coveredBy (r :: rs) p = (inRectB r p || coveredBy rs p) := by
  simp [coveredBy, List.any_cons]

theorem applyRedactions_apply (regions : List RedactionRegion) (s : Surface)
    (p : ℚ × ℚ) :
    applyRedactions regions s p = if coveredBy regions p then blackOpaque else s p := by
  induction regions generalizing s with
  | nil => simp [applyRedactions, coveredBy]
  | cons r rs ih =>
    show applyRedactions rs (fillRect blackOpaque r.x r.y r.width r.height s) p = _
    rw [ih, coveredBy_cons]
    cases hb : inRectB r p <;> simp only [inRectB, decide_eq_true_eq,
      decide_eq_false_iff_not] at hb <;>
      cases hc : coveredBy rs p <;> simp [fillRect, hb, hc]

/-! ## Word-overlap mapping lemmas (claim C1) -/

theorem indexOfFromAux_le (full pat : List Char) :
    ∀ fuel j s, indexOfFromAux full pat j fuel = some s → j ≤ s := by
  intro fuel
  induction fuel with
  | zero => intro j s h; simp [indexOfFromAux] at h
  | succ fuel ih =>
    intro j s h
    by_cases hp : pat.isPrefixOf (full.drop j)
    · simp [indexOfFromAux, hp] at h
      omega
    · simp [indexOfFromAux, hp] at h
      have := ih (j + 1) s h
      omega

theorem indexOfFrom_le (full pat : List Char) (i s : ℕ)
    (h : indexOfFrom full pat i = some s) : i ≤ s :=
  indexOfFromAux_le full pat _ i s h

theorem wordPositions_le (full : List Char) :
    ∀ ws cur w s, (w, some s) ∈ wordPositions full ws cur → cur ≤ s := by
  intro ws
  induction ws with
  | nil => intro cur w s h; simp [wordPositions] at h
  | cons w' ws ih =>
    intro cur w s h
    unfold wordPositions at h
    cases hidx : indexOfFrom full w'.text.toList cur with
    | none =>
      rw [hidx] at h
      rcases List.mem_cons.1 h with h | h
      · exact absurd (congrArg Prod.snd h) (by simp)
      · exact ih cur w s h
    | some st =>
      rw [hidx] at h
      have hst : cur ≤ st := indexOfFrom_le full w'.text.toList cur st hidx
      rcases List.mem_cons.1 h with h | h
      · have : s = st := by
          have := congrArg Prod.snd h
          simpa using this
        omega
      · have := ih (st + w'.text.length) w s h
        omega

theorem wordQualifies_false_of_le (startIndex endIndex : ℕ) (w : OCRWord)
    (s : ℕ) (h : endIndex ≤ s) :
    wordQualifies startIndex endIndex w (some s) = false := by
  have hzero : min (s + w.text.length) endIndex - max s startIndex = 0 := by
    have h1 : min (s + w.text.length) endIndex ≤ endIndex := min_le_right _ _
    have h2 : s ≤ max s startIndex := le_max_left _ _
    omega
  have hnn : (0 : ℚ) ≤ (w.text.length : ℚ) * 0.5 := by positivity
  simp [wordQualifies, hzero, not_lt.2 hnn]

theorem findOverlappingWordsGo_eq_spec (startIndex endIndex : ℕ)
    (full : List Char) :
    ∀ ws cur, findOverlappingWordsGo startIndex endIndex full ws cur =
      (wordPositions full ws cur).filterMap fun wp =>
        if wordQualifies startIndex endIndex wp.1 wp.2 then some wp.1 else none := by
  intro ws
  induction ws with
  | nil => intro cur; simp [findOverlappingWordsGo, wordPositions]
  | cons w ws ih =>
    intro cur
    unfold findOverlappingWordsGo wordPositions
    cases hidx : indexOfFrom full w.text.toList cur with
    | none =>
      simp only [List.filterMap_cons, wordQualifies]
      exact ih cur
    | some s =>
      simp only [List.filterMap_cons]
      have hlen : s + w.text.length - s = w.text.length := by omega
      by_cases hbr : endIndex ≤ s
      · have hq : wordQualifies startIndex endIndex w (some s) = false :=
          wordQualifies_false_of_le startIndex endIndex w s hbr
        have htail : ((wordPositions full ws (s + w.text.length)).filterMap fun wp =>
            if wordQualifies startIndex endIndex wp.1 wp.2 then some wp.1
            else none) = [] := by
          rw [List.filterMap_eq_nil_iff]
          intro wp hwp
          cases hp : wp.2 with
          | none => simp [wordQualifies, hp]
          | some s' =>
            have hmem : (wp.1, some s') ∈ wordPositions full ws (s + w.text.length) := by
              rw [← hp]; simpa using hwp
            have hs' : s + w.text.length ≤ s' :=
              wordPositions_le full ws (s + w.text.length) wp.1 s' hmem
            have : endIndex ≤ s' := by omega
            simp [hp, wordQualifies_false_of_le startIndex endIndex wp.1 s' this]
        simp only [hq, if_false, hbr, if_true, htail]
        have hqr : ¬ ((min (s + w.text.length) endIndex - max s startIndex : ℕ) : ℚ) >
            ((s + w.text.length - s : ℕ) : ℚ) * 0.5 := by
          rw [hlen]
          have := wordQualifies_false_of_le startIndex endIndex w s hbr
          simpa [wordQualifies] using this
        simp [hqr]
        rw [hlen] at hqr
        exact not_lt.1 hqr
      · have hrest : (if endIndex ≤ s then []
            else findOverlappingWordsGo startIndex endIndex full ws
              (s + w.text.length)) =
            findOverlappingWordsGo startIndex endIndex full ws (s + w.text.length) := by
          simp [hbr]
        rw [hrest, ih (s + w.text.length)]
        by_cases hq : wordQualifies startIndex endIndex w (some s) = true
        · have hqr : ((min (s + w.text.length) endIndex - max s startIndex : ℕ) : ℚ) >
              ((s + w.text.length - s : ℕ) : ℚ) * 0.5 := by
            rw [hlen]
            simpa [wordQualifies] using hq
          simp [hqr, hq]
          rw [hlen] at hqr
          exact hqr
        · have hq' : wordQualifies startIndex endIndex w (some s) = false := by
            simpa using hq
          have hqr : ¬ ((min (s + w.text.length) endIndex - max s startIndex : ℕ) : ℚ) >
              ((s + w.text.length - s : ℕ) : ℚ) * 0.5 := by
            rw [hlen]
            simpa [wordQualifies] using hq'
          simp [hqr, hq']
          rw [hlen] at hqr
          exact not_lt.1 hqr

/-- Claim C1: the words of a detection are exactly the OCR words (as
located by the cursor scan) whose overlap with the match's character
range `[startIndex, endIndex)` is strictly more than 50% of their own
character span; a match with no qualifying word produces no detection,
so every detection returned by the pattern path has a non-empty words
list. -/
theorem detection_words_exact_overlap (matchesFor : String → List PatternMatch)
    (words : List OCRWord) (text : String) (startIndex endIndex : ℕ)
    (matchText ty : String) :
    findOverlappingWords startIndex endIndex words text =
      overlappingWordsSpec startIndex endIndex words text ∧
    (mapMatchToWords matchText startIndex endIndex ty words text).all
      (fun d => !d.words.isEmpty) = true ∧
    (detectWithRegex matchesFor words text).all
      (fun d => !d.words.isEmpty) = true := by
  have hspec : ∀ si ei : ℕ,
      findOverlappingWords si ei words text =
        overlappingWordsSpec si ei words text := by
    intro si ei
    exact findOverlappingWordsGo_eq_spec si ei text.toList words 0
  have hmap : ∀ (mt ty' : String) (si ei : ℕ),
      (mapMatchToWords mt si ei ty' words text).all
        (fun d => !d.words.isEmpty) = true := by
    intro mt ty' si ei
    unfold mapMatchToWords
    by_cases hemp : (findOverlappingWords si ei words text).isEmpty
    · simp [hemp]
    · have hemp' : (findOverlappingWords si ei words text).isEmpty = false := by
        simpa using hemp
      simp [hemp']
  refine ⟨hspec startIndex endIndex, hmap matchText ty startIndex endIndex, ?_⟩
  rw [List.all_eq_true]
  intro d hd
  unfold detectWithRegex at hd
  rcases List.mem_flatMap.1 hd with ⟨ty', _, hdm⟩
  rcases List.mem_filterMap.1 hdm with ⟨m, _, hmm⟩
  have := hmap m.text ty' m.startIndex m.endIndex
  rw [hmm] at this
  simpa using this

/-! ## Credit-card and PIIType claims (C2, C7)

Concrete evaluation lemmas: the kernel cannot reduce rational
arithmetic, so the `ℚ`-valued computations are evaluated by `simp` and
`norm_num` instead of `decide`. -/

theorem wordPositions_ccFail :
    wordPositions ccFailText.toList [ccFailWord] 0 = [(ccFailWord, some 0)] := by
  decide

theorem wordQualifies_ccFail : wordQualifies 0 16 ccFailWord (some 0) = true := by
  have hlen : ccFailWord.text.length = 16 := by decide
  simp only [wordQualifies, hlen, decide_eq_true_eq]
  norm_num

theorem findOverlappingWords_ccFail :
    findOverlappingWords 0 16 [ccFailWord] ccFailText = [ccFailWord] := by
  rw [findOverlappingWords, findOverlappingWordsGo_eq_spec, wordPositions_ccFail]
  simp [wordQualifies_ccFail]

theorem detectWithRegex_ccFail_eval :
    detectWithRegex ccFailMatches [ccFailWord] ccFailText =
      [{ text := "4111111111111112", type := "creditCard",
         confidence :=
           calculateConfidence "creditCard" "4111111111111112" [ccFailWord],
         startIndex := 0, endIndex := 16, words := [ccFailWord] }] := by
  have h1 : ccFailMatches "email" = [] := by decide
  have h2 : ccFailMatches "phone" = [] := by decide
  have h3 : ccFailMatches "ssn" = [] := by decide
  have h4 : ccFailMatches "creditCard" = [⟨"4111111111111112", 0, 16⟩] := by decide
  have h5 : ccFailMatches "dateOfBirth" = [] := by decide
  simp only [detectWithRegex, patternKeys, List.flatMap_cons, List.flatMap_nil,
    h1, h2, h3, h4, h5, List.filterMap_nil, List.filterMap_cons,
    List.nil_append, List.append_nil]
  simp [mapMatchToWords, findOverlappingWords_ccFail]

theorem calculateConfidence_ccFail_eval :
    calculateConfidence "creditCard" "4111111111111112" [ccFailWord] = 93 / 100 := by
  have hconf : ccFailWord.confidence = 100 := rfl
  have nem : ("creditCard" : String) ≠ "email" := by decide
  have nssn : ("creditCard" : String) ≠ "ssn" := by decide
  have nlu : ¬(("creditCard" : String) = "credit_card" ∧
      isValidCreditCard "4111111111111112" = false) :=
    fun h => absurd h.1 (by decide)
  simp only [calculateConfidence, baseConfidence, List.length_cons,
    List.length_nil, List.map_cons, List.map_nil, List.sum_cons, List.sum_nil,
    hconf, if_neg nem, if_neg nssn, if_neg nlu]
  norm_num [min_def]

/-- Claim C2 (code bug): `isValidCreditCard` behaves as documented on the
spec's Luhn examples, yet the pattern path never applies the 0.5 Luhn
discount: `detectWithRegex` passes the pattern key `"creditCard"` as the
type while `calculateConfidence` compares it against the enum value
`"credit_card"`, so the detection for a Luhn-failing 16-digit number
keeps confidence `0.93` instead of the claimed `0.93 * 0.5 = 0.465`. -/
theorem luhn_discount_never_applied :
    isValidCreditCard "4111111111111111" = true ∧
    isValidCreditCard "4111111111111112" = false ∧
    (detectWithRegex ccFailMatches [ccFailWord] ccFailText).map
        PIIDetection.confidence = [93 / 100] ∧
    (detectWithRegex ccFailMatches [ccFailWord] ccFailText).map
        PIIDetection.type = ["creditCard"] ∧
    (((9 : ℚ) / 10) * 0.7 + ((100 : ℚ) / 100) * 0.3) * 0.5 = 93 / 200 ∧
    ((93 : ℚ) / 100 ≠ 93 / 200) := by
  refine ⟨by decide, by decide, ?_, ?_, by norm_num, by norm_num⟩
  · rw [detectWithRegex_ccFail_eval]
    simp [calculateConfidence_ccFail_eval]
  · rw [detectWithRegex_ccFail_eval]
    simp

theorem wordPositions_dob :
    wordPositions dobText.toList [dobWord] 0 = [(dobWord, some 0)] := by
  decide

theorem wordQualifies_dob : wordQualifies 0 10 dobWord (some 0) = true := by
  have hlen : dobWord.text.length = 10 := by decide
  simp only [wordQualifies, hlen, decide_eq_true_eq]
  norm_num

theorem findOverlappingWords_dob :
    findOverlappingWords 0 10 [dobWord] dobText = [dobWord] := by
  rw [findOverlappingWords, findOverlappingWordsGo_eq_spec, wordPositions_dob]
  simp [wordQualifies_dob]

theorem detectWithRegex_dob_eval :
    detectWithRegex dobMatches [dobWord] dobText =
      [{ text := "01/02/1990", type := "dateOfBirth",
         confidence := calculateConfidence "dateOfBirth" "01/02/1990" [dobWord],
         startIndex := 0, endIndex := 10, words := [dobWord] }] := by
  have h1 : dobMatches "email" = [] := by decide
  have h2 : dobMatches "phone" = [] := by decide
  have h3 : dobMatches "ssn" = [] := by decide
  have h4 : dobMatches "creditCard" = [] := by decide
  have h5 : dobMatches "dateOfBirth" = [⟨"01/02/1990", 0, 10⟩] := by decide
  simp only [detectWithRegex, patternKeys, List.flatMap_cons, List.flatMap_nil,
    h1, h2, h3, h4, h5, List.filterMap_nil, List.filterMap_cons,
    List.nil_append, List.append_nil]
  simp [mapMatchToWords, findOverlappingWords_dob]

/-- Claim C7 (code bug): the pattern path emits the raw pattern keys
`"creditCard"` and `"dateOfBirth"` as detection types — strings that are
not values of the closed `PIIType` enumeration, whose members are
`"credit_card"` and `"date_of_birth"`. -/
theorem pattern_type_not_enum_value :
    (detectWithRegex ccFailMatches [ccFailWord] ccFailText).map
        PIIDetection.type = ["creditCard"] ∧
    (detectWithRegex dobMatches [dobWord] dobText).map
        PIIDetection.type = ["dateOfBirth"] ∧
    "creditCard" ∉ piiTypeValues ∧
    "dateOfBirth" ∉ piiTypeValues ∧
    "credit_card" ∈ piiTypeValues ∧
    "date_of_birth" ∈ piiTypeValues := by
  refine ⟨?_, ?_, by decide, by decide, by decide, by decide⟩
  · rw [detectWithRegex_ccFail_eval]
    simp
  · rw [detectWithRegex_dob_eval]
    simp

/-- Claim C6: applying `applyRedactions` twice with the same region set
yields a pixel-identical surface to applying it once — each region is an
opaque solid-black rectangle at its exact stored coordinates, so
repainting changes nothing. -/
theorem applyRedactions_idempotent (regions : List RedactionRegion) (s : Surface) :
    applyRedactions regions (applyRedactions regions s) = applyRedactions regions s := by
  funext p
  rw [applyRedactions_apply, applyRedactions_apply]
  by_cases h : coveredBy regions p = true <;> simp [h]

/-! ## Line clustering lemmas and claim C3 -/

theorem groupLinesGo_eq_spec :
    ∀ (ws currentLine : List OCRWord) (y : ℚ), 0 ≤ y →
      (∀ w ∈ ws, 0 ≤ w.bbox.y0) → currentLine ≠ [] →
      groupLinesGo ws currentLine y = groupLinesSpecGo ws currentLine y := by
  intro ws
  induction ws with
  | nil =>
    intro cl y _ _ hcl
    simp only [groupLinesGo, groupLinesSpecGo]
    rw [if_neg]
    simpa using hcl
  | cons w ws ih =>
    intro cl y hy hws hcl
    have hy0 : 0 ≤ w.bbox.y0 := hws w (by simp)
    have hne : ¬ (y = -1) := by
      intro h
      rw [h] at hy
      norm_num at hy
    simp only [groupLinesGo, groupLinesSpecGo]
    by_cases hd : |w.bbox.y0 - y| < 5
    · rw [if_pos (Or.inr hd), if_pos hd]
      exact ih (cl ++ [w]) w.bbox.y0 hy0
        (fun w' hw' => hws w' (List.mem_cons_of_mem w hw')) (by simp)
    · rw [if_neg (fun h => h.elim hne hd), if_neg hd]
      rw [if_neg (by simpa using hcl)]
      rw [ih [w] w.bbox.y0 hy0
        (fun w' hw' => hws w' (List.mem_cons_of_mem w hw')) (by simp)]
      rfl

theorem groupLines_eq_spec (ws : List OCRWord)
    (h : ∀ w ∈ ws, 0 ≤ w.bbox.y0) : groupLines ws = groupLinesSpec ws := by
  cases ws with
  | nil => rfl
  | cons w ws =>
    show groupLinesGo (w :: ws) [] (-1) = groupLinesSpec (w :: ws)
    simp only [groupLinesGo, groupLinesSpec]
    rw [if_pos (Or.inl trivial)]
    rw [show ([] : List OCRWord) ++ [w] = [w] from rfl]
    exact groupLinesGo_eq_spec ws [w] w.bbox.y0 (h w (by simp))
      (fun w' hw' => h w' (List.mem_cons_of_mem w hw')) (by simp)

theorem groupLinesSpecGo_ne_nil :
    ∀ (ws acc : List OCRWord) (y : ℚ), acc ≠ [] →
      ∀ line ∈ groupLinesSpecGo ws acc y, line ≠ [] := by
  intro ws
  induction ws with
  | nil =>
    intro acc y hacc line hline
    simp only [groupLinesSpecGo, List.mem_singleton] at hline
    rwa [hline]
  | cons w ws ih =>
    intro acc y hacc line hline
    simp only [groupLinesSpecGo] at hline
    by_cases hd : |w.bbox.y0 - y| < 5
    · rw [if_pos hd] at hline
      exact ih (acc ++ [w]) w.bbox.y0 (by simp) line hline
    · rw [if_neg hd] at hline
      rcases List.mem_cons.1 hline with h | h
      · rwa [h]
      · exact ih [w] w.bbox.y0 (by simp) line h

theorem lineRegion_eq_spec (idStr : String) (d : PIIDetection)
    (line : List OCRWord) (h : line ≠ []) :
    lineRegion idStr d line = some (lineRegionSpec idStr d line) := by
  cases line with
  | nil => exact absurd rfl h
  | cons w rest =>
    cases hl : (w :: rest).getLast? with
    | none =>
      rw [List.getLast?_eq_none_iff] at hl
      exact absurd hl (by simp)
    | some lw => simp [lineRegion, lineRegionSpec, hl]

theorem filterMap_map_of_some {α β : Type} (f : α → Option β) (g : α → β) :
    ∀ l : List α, (∀ x ∈ l, f x = some (g x)) → l.filterMap f = l.map g := by
  intro l
  induction l with
  | nil => simp
  | cons x xs ih =>
    intro h
    simp [h x (by simp), ih fun y hy => h y (by simp [hy])]

theorem regionsForDetection_eq_spec (idStr : String) (d : PIIDetection)
    (h : ∀ w ∈ d.words, 0 ≤ w.bbox.y0) :
    regionsForDetection idStr d =
      (groupLinesSpec d.words).map (lineRegionSpec idStr d) := by
  unfold regionsForDetection
  rw [groupLines_eq_spec d.words h]
  apply filterMap_map_of_some
  intro line hline
  apply lineRegion_eq_spec
  cases hw : d.words with
  | nil =>
    rw [hw] at hline
    simp [groupLinesSpec] at hline
  | cons w ws =>
    rw [hw] at hline
    simp only [groupLinesSpec] at hline
    exact groupLinesSpecGo_ne_nil ws [w] w.bbox.y0 (by simp) line hline

/-- Claim C3: `addAutoDetectedRegions` groups each detection's words
into lines by the `|y0 − previous y0| < 5` clustering and appends
exactly one region per line, spanning from the first word's top-left to
the last word's bottom-right, carrying the detection's type and
confidence with `isManual = false` (stated for pixel-space word boxes,
i.e. non-negative `y0`, where the `-1` cursor sentinel cannot collide
with a word's top edge). -/
theorem auto_regions_one_per_line (idStr : String) (page : ℕ)
    (dets : List PIIDetection) (st : RedactionsState)
    (hy : ∀ d ∈ dets, ∀ w ∈ d.words, 0 ≤ w.bbox.y0) :
    getRegionsForPage (addAutoDetectedRegions idStr page dets st) page =
      getRegionsForPage st page ++
        dets.flatMap fun d =>
          (groupLinesSpec d.words).map (lineRegionSpec idStr d) := by
  have hflat : ∀ ds : List PIIDetection,
      (∀ d ∈ ds, ∀ w ∈ d.words, 0 ≤ w.bbox.y0) →
      ds.flatMap (regionsForDetection idStr) =
        ds.flatMap fun d =>
          (groupLinesSpec d.words).map (lineRegionSpec idStr d) := by
    intro ds
    induction ds with
    | nil => simp
    | cons d ds ih =>
      intro h
      simp only [List.flatMap_cons]
      rw [regionsForDetection_eq_spec idStr d (h d (by simp)),
        ih fun d' hd' => h d' (by simp [hd'])]
  simp only [addAutoDetectedRegions, getRegionsForPage]
  rw [mapGet_mapSet, hflat dets hy]

/-- Witness for C3: a detection with words at `y0 = 0`, `4`, `10`: the
4px step stays on one line, the 6px step opens a second line, so two
regions are appended. -/
theorem auto_regions_one_per_line_witness :
    (∀ d ∈ [cDet], ∀ w ∈ d.words, 0 ≤ w.bbox.y0) ∧
    getRegionsForPage (addAutoDetectedRegions "auto1" 1 [cDet] initialState) 1 =
      getRegionsForPage initialState 1 ++
        [cDet].flatMap fun d =>
          (groupLinesSpec d.words).map (lineRegionSpec "auto1" d) :=
  ⟨by decide, auto_regions_one_per_line "auto1" 1 [cDet] initialState (by decide)⟩

/-! ## Geometry correction (claim C8) -/

/-- Counterexample to C8 as stated: a line baseline `y0` that is present
but equal to `0` is a known baseline, and the word is tall enough for
the correction, yet the emitted top edge is the raw one — `|| null`
coerces the falsy baseline `0` to "unknown". -/
theorem baseline_zero_treated_as_unknown :
    aspectRatio tallZeroBaselineWord > 2.5 ∧
    (correctWordBbox (some 0) tallZeroBaselineWord).bbox.y0 = 5 ∧
    (5 : ℚ) ≠ 0 - avgCharWidth tallZeroBaselineWord * 1.5 * 0.8 := by
  have hlen0 : ("a" : String).length = 1 := by decide
  have hlen : (("a" : String).length : ℚ) = 1 := by rw [hlen0]; norm_num
  refine ⟨?_, ?_, ?_⟩
  · simp only [aspectRatio, avgCharWidth, tessWidth, tessHeight,
      tallZeroBaselineWord, hlen]
    norm_num
  · simp [correctWordBbox, effectiveBaseline, tallZeroBaselineWord]
  · simp only [avgCharWidth, tessWidth, tallZeroBaselineWord, hlen]
    norm_num

/-- Claim C8 as amended: for a word with at least one character and a
positive box width, on a line whose baseline `y0` is known *and
non-zero*, the top edge becomes `baseline − (avgCharWidth × 1.5) × 0.8`
when the aspect ratio exceeds 2.5, with `x0`, `x1`, `y1` untouched; in
every other case (ratio ≤ 2.5, or no baseline) the raw box is emitted
unchanged. -/
theorem geometry_correction_on_nonzero_baseline (b : ℚ) (w : TessWord)
    (hb : b ≠ 0) (_hlen : 0 < w.text.length) (_hwidth : 0 < tessWidth w) :
    (aspectRatio w > 2.5 →
      correctWordBbox (some b) w =
        { text := w.text,
          bbox := { x0 := w.bbox.x0, y0 := b - avgCharWidth w * 1.5 * 0.8,
                    x1 := w.bbox.x1, y1 := w.bbox.y1 },
          confidence := w.confidence }) ∧
    (¬ aspectRatio w > 2.5 →
      correctWordBbox (some b) w =
        { text := w.text, bbox := w.bbox, confidence := w.confidence }) ∧
    correctWordBbox none w =
      { text := w.text, bbox := w.bbox, confidence := w.confidence } := by
  refine ⟨?_, ?_, ?_⟩
  · intro h
    simp [correctWordBbox, effectiveBaseline, hb, h]
  · intro h
    simp [correctWordBbox, effectiveBaseline, hb, h]
  · simp [correctWordBbox, effectiveBaseline]

/-- Witness for the amended C8: a 1-character word of box height 4 and
width 1 on a line with baseline 100 gets its top edge recomputed. -/
theorem geometry_correction_on_nonzero_baseline_witness :
    ((100 : ℚ) ≠ 0) ∧ (0 < (("a" : String).length)) ∧
    (0 < tessWidth ⟨"a", ⟨0, 95, 1, 99⟩, 90⟩) ∧
    (aspectRatio ⟨"a", ⟨0, 95, 1, 99⟩, 90⟩ > 2.5) ∧
    correctWordBbox (some 100) ⟨"a", ⟨0, 95, 1, 99⟩, 90⟩ =
      { text := "a",
        bbox := { x0 := 0,
                  y0 := 100 - avgCharWidth ⟨"a", ⟨0, 95, 1, 99⟩, 90⟩ * 1.5 * 0.8,
                  x1 := 1, y1 := 99 },
        confidence := 90 } := by
  have hb : (100 : ℚ) ≠ 0 := by norm_num
  have hlen : 0 < (("a" : String).length) := by decide
  have hw : 0 < tessWidth ⟨"a", ⟨0, 95, 1, 99⟩, 90⟩ := by norm_num [tessWidth]
  have hasp : aspectRatio ⟨"a", ⟨0, 95, 1, 99⟩, 90⟩ > 2.5 := by
    have h0 : ("a" : String).length = 1 := by decide
    have h1 : ((("a" : String).length : ℚ)) = 1 := by rw [h0]; norm_num
    simp only [aspectRatio, avgCharWidth, tessWidth, tessHeight, h1]
    norm_num
  exact ⟨hb, hlen, hw, hasp,
    (geometry_correction_on_nonzero_baseline 100 _ hb hlen hw).1 hasp⟩

/-! ## Region geometry invariant (claim C9) -/

/-- Counterexample to C9 as stated: the hook performs no validation, so
a single `addManualRegion` call with a rect at `x = -1` stores a region
with negative `x`. -/
theorem region_nonneg_claim_false :
    ¬ (∀ r ∈ allRegions (runOps [.addManual "m1" 1 ⟨-1, 0, 10, 10⟩]),
        0 ≤ r.x ∧ 0 ≤ r.y ∧ 0 ≤ r.width ∧ 0 ≤ r.height) := by
  decide

theorem mem_mapGet_allRegionsMap (m : PageMap) (page : ℕ) (r : RedactionRegion)
    (h : r ∈ mapGet m page) : r ∈ allRegionsMap m := by
  induction m with
  | nil => simp [mapGet] at h
  | cons e m ih =>
    by_cases he : e.1 = page
    · rw [mapGet, if_pos he] at h
      simp only [allRegionsMap, List.flatMap_cons, List.mem_append]
      exact Or.inl h
    · rw [mapGet, if_neg he] at h
      simp only [allRegionsMap, List.flatMap_cons, List.mem_append]
      exact Or.inr (by simpa [allRegionsMap] using ih h)

theorem mem_allRegionsMap_mapSet (m : PageMap) (page : ℕ)
    (rs : List RedactionRegion) (r : RedactionRegion)
    (h : r ∈ allRegionsMap (mapSet m page rs)) :
    r ∈ rs ∨ r ∈ allRegionsMap m := by
  induction m with
  | nil =>
    simp [mapSet, allRegionsMap] at h
    exact Or.inl h
  | cons e m ih =>
    by_cases he : e.1 = page
    · rw [mapSet, if_pos he] at h
      simp only [allRegionsMap, List.flatMap_cons, List.mem_append] at h ⊢
      rcases h with h | h
      · exact Or.inl h
      · exact Or.inr (Or.inr h)
    · rw [mapSet, if_neg he] at h
      simp only [allRegionsMap, List.flatMap_cons, List.mem_append] at h ⊢
      rcases h with h | h
      · exact Or.inr (Or.inl h)
      · rcases ih (by simpa [allRegionsMap] using h) with h' | h'
        · exact Or.inl h'
        · exact Or.inr (Or.inr h')

theorem mem_allRegionsMap_mapDelete (m : PageMap) (page : ℕ)
    (r : RedactionRegion) (h : r ∈ allRegionsMap (mapDelete m page)) :
    r ∈ allRegionsMap m := by
  induction m with
  | nil => simpa [mapDelete] using h
  | cons e m ih =>
    by_cases he : e.1 = page
    · rw [mapDelete, if_pos he] at h
      simp only [allRegionsMap, List.flatMap_cons, List.mem_append]
      exact Or.inr (by simpa [allRegionsMap] using ih h)
    · rw [mapDelete, if_neg he] at h
      simp only [allRegionsMap, List.flatMap_cons, List.mem_append] at h ⊢
      rcases h with h | h
      · exact Or.inl h
      · exact Or.inr (by simpa [allRegionsMap] using ih (by simpa [allRegionsMap] using h))

theorem regionsForDetection_ok (idStr : String) (d : PIIDetection)
    (hd : detectionOK d = true) :
    ∀ r ∈ regionsForDetection idStr d, regionOK r = true := by
  intro r hr
  unfold regionsForDetection at hr
  rcases List.mem_filterMap.1 hr with ⟨line, hline, hsome⟩
  have hok : lineSpansNonNeg line = true := by
    simp only [detectionOK] at hd
    exact List.all_eq_true.1 hd line hline
  cases hh : line.head? with
  | none => simp [lineRegion, hh] at hsome
  | some fw =>
    cases hl : line.getLast? with
    | none => simp [lineRegion, hh, hl] at hsome
    | some lw =>
      simp only [lineRegion, hh, hl, Option.some.injEq] at hsome
      subst hsome
      simp only [lineSpansNonNeg, hh, hl, Bool.and_eq_true,
        decide_eq_true_eq] at hok
      obtain ⟨⟨⟨h1, h2⟩, h3⟩, h4⟩ := hok
      simp [regionOK, h1, h2, sub_nonneg.2 h3, sub_nonneg.2 h4]

theorem applyOp_preserves_nonneg (st : RedactionsState) (op : StoreOp)
    (hst : ∀ r ∈ allRegions st, regionOK r = true) (hop : opOK op = true) :
    ∀ r ∈ allRegions (applyOp st op), regionOK r = true := by
  cases op with
  | addAuto idStr page dets =>
    intro r hr
    simp only [applyOp, addAutoDetectedRegions, allRegions] at hr
    rcases mem_allRegionsMap_mapSet _ _ _ _ hr with h | h
    · rcases List.mem_append.1 h with h | h
      · exact hst r (mem_mapGet_allRegionsMap _ _ _ h)
      · rcases List.mem_flatMap.1 h with ⟨d, hdin, hrd⟩
        have hdok : detectionOK d = true := by
          simp only [opOK] at hop
          exact List.all_eq_true.1 hop d hdin
        exact regionsForDetection_ok idStr d hdok r hrd
    · exact hst r h
  | addManual idStr page rect =>
    intro r hr
    simp only [applyOp, addManualRegion, allRegions] at hr
    rcases mem_allRegionsMap_mapSet _ _ _ _ hr with h | h
    · rcases List.mem_append.1 h with h | h
      · exact hst r (mem_mapGet_allRegionsMap _ _ _ h)
      · simp only [List.mem_singleton] at h
        subst h
        simp only [opOK, rectOK, Bool.and_eq_true, decide_eq_true_eq] at hop
        obtain ⟨⟨⟨h1, h2⟩, h3⟩, h4⟩ := hop
        simp [regionOK, h1, h2, h3, h4]
    · exact hst r h
  | remove page rid =>
    intro r hr
    simp only [applyOp, removeRegion, allRegions] at hr
    split at hr
    · exact hst r (mem_allRegionsMap_mapDelete _ _ _ hr)
    · rcases mem_allRegionsMap_mapSet _ _ _ _ hr with h | h
      · exact hst r (mem_mapGet_allRegionsMap _ _ _ (List.mem_of_mem_filter h))
      · exact hst r h
  | clear pageOpt =>
    intro r hr
    cases pageOpt with
    | some page =>
      simp only [applyOp, clearAllRegions, allRegions] at hr
      exact hst r (mem_allRegionsMap_mapDelete _ _ _ hr)
    | none => simp [applyOp, clearAllRegions, allRegions, allRegionsMap] at hr

/-- Claim C9 as amended: along every call sequence in which each
`addManualRegion` rect has non-negative `x, y, width, height` and each
detection given to `addAutoDetectedRegions` has clustered lines whose
first word's top-left is non-negative and weakly left of / above the
last word's bottom-right, every stored region has non-negative
`x, y, width, height`. -/
theorem region_nonneg_invariant (ops : List StoreOp)
    (hops : ∀ op ∈ ops, opOK op = true) :
    ∀ r ∈ allRegions (runOps ops), regionOK r = true := by
  suffices h : ∀ (ops : List StoreOp) (st : RedactionsState),
      (∀ r ∈ allRegions st, regionOK r = true) →
      (∀ op ∈ ops, opOK op = true) →
      ∀ r ∈ allRegions (ops.foldl applyOp st), regionOK r = true by
    exact h ops initialState (by simp [allRegions, allRegionsMap, initialState]) hops
  intro ops
  induction ops with
  | nil =>
    intro st hst _
    simpa using hst
  | cons op ops ih =>
    intro st hst hops
    simp only [List.foldl_cons]
    exact ih (applyOp st op)
      (applyOp_preserves_nonneg st op hst (hops op (by simp)))
      fun o ho => hops o (by simp [ho])

/-- Witness for the amended C9: a well-formed manual rect followed by a
well-formed auto detection keeps every stored region non-negative. -/
theorem region_nonneg_invariant_witness :
    (∀ op ∈ [StoreOp.addManual "m" 1 ⟨1, 2, 10, 10⟩,
             StoreOp.addAuto "a" 1 [cDet]], opOK op = true) ∧
    (∀ r ∈ allRegions (runOps [StoreOp.addManual "m" 1 ⟨1, 2, 10, 10⟩,
             StoreOp.addAuto "a" 1 [cDet]]), regionOK r = true) := by
  have hdet : opOK (StoreOp.addAuto "a" 1 [cDet]) = true := by
    norm_num [opOK, detectionOK, cDet, groupLines, groupLinesGo, lineSpansNonNeg]
  have hman : opOK (StoreOp.addManual "m" 1 ⟨1, 2, 10, 10⟩) = true := by decide
  have hops : ∀ op ∈ [StoreOp.addManual "m" 1 ⟨1, 2, 10, 10⟩,
      StoreOp.addAuto "a" 1 [cDet]], opOK op = true := by
    intro op hop
    rcases List.mem_cons.1 hop with h | h
    · rw [h]; exact hman
    · simp only [List.mem_singleton] at h
      rw [h]; exact hdet
  exact ⟨hops, region_nonneg_invariant _ hops⟩

/-! ## Worker timeout bookkeeping (claim C10) -/

/-- Claim C10: a pending extraction request whose 120-second timeout
fires is rejected with the timeout-specific error and removed from the
pending table; a worker success or error message whose request id is no
longer pending leaves the state unchanged (silently ignored); and the
extraction timeout constant is 120000 ms. -/
theorem extraction_timeout_behavior (st : WorkerClientState) (rid : String)
    (res : WorkerOCRResult) (err : Option String) :
    (rid ∈ st.pendingRequests →
      rid ∉ (fireExtractTimeout rid st).pendingRequests ∧
      (fireExtractTimeout rid st).outcomes =
        st.outcomes ++ [(rid, .failure "OCR operation timeout")]) ∧
    (rid ∉ st.pendingRequests →
      handleWorkerMessage (.success (some rid) (some res)) st = st ∧
      handleWorkerMessage (.error (some rid) err) st = st) ∧
    TIMEOUT_MS = 120000 := by
  refine ⟨?_, ?_, rfl⟩
  · intro _
    constructor
    · intro hmem
      rcases List.mem_filter.1 hmem with ⟨_, hne⟩
      simp at hne
    · rfl
  · intro hout
    constructor
    · simp [handleWorkerMessage, hout]
    · simp [handleWorkerMessage, hout]

/-- Witness for C10: with one pending request `req_1`, its timeout fires
and settles it; a stray worker message for the unknown id `req_9` is
ignored. -/
theorem extraction_timeout_behavior_witness :
    ("req_1" ∈ (⟨["req_1"], []⟩ : WorkerClientState).pendingRequests ∧
      "req_1" ∉ (fireExtractTimeout "req_1" ⟨["req_1"], []⟩).pendingRequests ∧
      (fireExtractTimeout "req_1" ⟨["req_1"], []⟩).outcomes =
        [] ++ [("req_1", .failure "OCR operation timeout")]) ∧
    ("req_9" ∉ (⟨["req_1"], []⟩ : WorkerClientState).pendingRequests ∧
      handleWorkerMessage (.success (some "req_9") (some ⟨"", [], 0⟩))
          ⟨["req_1"], []⟩ = ⟨["req_1"], []⟩ ∧
      handleWorkerMessage (.error (some "req_9") none)
          ⟨["req_1"], []⟩ = ⟨["req_1"], []⟩) := by
  constructor
  · refine ⟨by decide, ?_⟩
    exact (extraction_timeout_behavior ⟨["req_1"], []⟩ "req_1" ⟨"", [], 0⟩
      none).1 (by decide)
  · refine ⟨by decide, ?_⟩
    exact (extraction_timeout_behavior ⟨["req_1"], []⟩ "req_9" ⟨"", [], 0⟩
      none).2.1 (by decide)

end Redactor
